import Mathlib

/-!
Verification development for the clashsubsys subscription-conversion core.

The Python sources under `backend/app` are shallowly embedded here:
Python `str` values become `List Char` (`PyStr`), bytes become `List Nat`,
`dict`s become association lists, and fallible operations return `Option`.
Library calls (`urllib.parse`, `base64`, `re`, UTF-8 codecs, `packaging.version`,
`ipaddress`) are modelled by explicit executable functions covering the
behaviour exercised by the embedded code paths.
-/

set_option maxRecDepth 10000

/-- Python `str` is embedded as a list of unicode scalar values. -/
abbrev PyStr := List Char

/-- Convenience: the character list of a Lean string literal. -/
def pys (s : String) : PyStr := s.data

/-- Python `s.split(sep, 1)` when `sep` occurs in `s`: the part before the first
occurrence of `sep` and the part after it; `none` when `sep` is absent. -/
def splitFirst (sep : Char) : PyStr → Option (PyStr × PyStr)
  | [] => none
  | c :: cs =>
    if c = sep then some ([], cs)
    else (splitFirst sep cs).map (fun p => (c :: p.1, p.2))

/-- Python `s.split(sep)` for a one-character separator (keeps empty fields,
yields `[""]` on the empty string). -/
def splitAll (sep : Char) : PyStr → List PyStr
  | [] => [[]]
  | c :: cs =>
    if c = sep then [] :: splitAll sep cs
    else
      match splitAll sep cs with
      | [] => [[c]]
      | h :: t => (c :: h) :: t

/-- Python `s.rsplit(sep, 1)` when `sep` occurs in `s`: split at the LAST
occurrence. -/
def rsplitLast (sep : Char) (s : PyStr) : Option (PyStr × PyStr) :=
  match splitFirst sep s.reverse with
  | none => none
  | some (a, b) => some (b.reverse, a.reverse)

/-- All suffixes of a list, longest first (used to model scanning positions). -/
def suffixes : PyStr → List PyStr
  | [] => [[]]
  | c :: cs => (c :: cs) :: suffixes cs

/-- Python `needle in hay` on strings (substring containment). -/
def isSubB (needle hay : PyStr) : Bool :=
  (suffixes hay).any (fun t => needle.isPrefixOf t)

/-- Python `s.lower()` (ASCII case mapping; the embedded code only lowercases
ASCII data). -/
def toLowerStr (s : PyStr) : PyStr := s.map Char.toLower

/-- Python whitespace recognised by `str.strip()`. -/
def isPySpace (c : Char) : Bool :=
  c = ' ' || c = '\t' || c = '\n' || c = '\x0d' || c = '\x0b' || c = '\x0c'

/-- Python `s.strip()`. -/
def stripStr (s : PyStr) : PyStr :=
  ((s.dropWhile isPySpace).reverse.dropWhile isPySpace).reverse

/-- Numeric value of a string of decimal digits. -/
def digitsVal (s : PyStr) : Nat :=
  s.foldl (fun a c => 10 * a + (c.toNat - 48)) 0

/-- Python `int(s)` on decimal input: strips whitespace, accepts an optional
sign followed by digits; `none` models `ValueError`. -/
def pyInt? (s : PyStr) : Option Int :=
  match stripStr s with
  | '-' :: ds =>
    if ds ≠ [] ∧ ds.all Char.isDigit then some (-(digitsVal ds : Int)) else none
  | '+' :: ds =>
    if ds ≠ [] ∧ ds.all Char.isDigit then some (digitsVal ds : Int) else none
  | ds =>
    if ds ≠ [] ∧ ds.all Char.isDigit then some (digitsVal ds : Int) else none

/-- Decimal digits of a positive number, most significant first (`fuel`-driven
so that the definition is structurally recursive and kernel-reducible; a fuel
of `n` always suffices). -/
def natDigitsF : Nat → Nat → PyStr
  | 0, _ => []
  | _ + 1, 0 => []
  | fuel + 1, n + 1 =>
    natDigitsF fuel ((n + 1) / 10) ++ [Char.ofNat (48 + (n + 1) % 10)]

/-- Python `str(n)` for a natural number. -/
def natToStr (n : Nat) : PyStr := if n = 0 then ['0'] else natDigitsF n n

/-- Python `str(i)` for an integer. -/
def intToStr (i : Int) : PyStr :=
  if i < 0 then '-' :: natToStr i.natAbs else natToStr i.natAbs

/-- Value of a hexadecimal digit. -/
def hexVal? (c : Char) : Option Nat :=
  if c.isDigit then some (c.toNat - 48)
  else if 'a' ≤ c ∧ c ≤ 'f' then some (c.toNat - 87)
  else if 'A' ≤ c ∧ c ≤ 'F' then some (c.toNat - 55)
  else none

/-! ### UTF-8 codec (models Python `bytes.decode('utf-8')` / `str.encode()`) -/

/-- UTF-8 encoding of one unicode scalar value. -/
def utf8EncodeChar (c : Char) : List Nat :=
  let n := c.toNat
  if n < 0x80 then [n]
  else if n < 0x800 then [0xC0 + n / 64, 0x80 + n % 64]
  else if n < 0x10000 then [0xE0 + n / 4096, 0x80 + (n / 64) % 64, 0x80 + n % 64]
  else [0xF0 + n / 262144, 0x80 + (n / 4096) % 64, 0x80 + (n / 64) % 64, 0x80 + n % 64]

/-- Python `s.encode('utf-8')`. -/
def utf8Encode (s : PyStr) : List Nat := (s.map utf8EncodeChar).flatten

/-- A UTF-8 continuation byte. -/
def isCont (b : Nat) : Bool := 0x80 ≤ b && b ≤ 0xBF

/-- Valid range of the second byte given the lead byte of a 3-byte sequence. -/
def cont3ok (lead b : Nat) : Bool :=
  if lead = 0xE0 then 0xA0 ≤ b && b ≤ 0xBF
  else if lead = 0xED then 0x80 ≤ b && b ≤ 0x9F
  else isCont b

/-- Valid range of the second byte given the lead byte of a 4-byte sequence. -/
def cont4ok (lead b : Nat) : Bool :=
  if lead = 0xF0 then 0x90 ≤ b && b ≤ 0xBF
  else if lead = 0xF4 then 0x80 ≤ b && b ≤ 0x8F
  else isCont b

/-- Python `bytes.decode('utf-8')` with strict error handling: `none` models
`UnicodeDecodeError`. -/
def utf8DecodeStrict : List Nat → Option PyStr
  | [] => some []
  | b :: rest =>
    if b < 0x80 then (utf8DecodeStrict rest).map (Char.ofNat b :: ·)
    else if 0xC2 ≤ b ∧ b ≤ 0xDF then
      match rest with
      | b2 :: r =>
        if isCont b2 then
          (utf8DecodeStrict r).map (Char.ofNat ((b - 0xC0) * 64 + (b2 - 0x80)) :: ·)
        else none
      | [] => none
    else if 0xE0 ≤ b ∧ b ≤ 0xEF then
      match rest with
      | b2 :: b3 :: r =>
        if cont3ok b b2 && isCont b3 then
          (utf8DecodeStrict r).map
            (Char.ofNat ((b - 0xE0) * 4096 + (b2 - 0x80) * 64 + (b3 - 0x80)) :: ·)
        else none
      | _ => none
    else if 0xF0 ≤ b ∧ b ≤ 0xF4 then
      match rest with
      | b2 :: b3 :: b4 :: r =>
        if cont4ok b b2 && isCont b3 && isCont b4 then
          (utf8DecodeStrict r).map
            (Char.ofNat ((b - 0xF0) * 262144 + (b2 - 0x80) * 4096 +
              (b3 - 0x80) * 64 + (b4 - 0x80)) :: ·)
        else none
      | _ => none
    else none

/-- The unicode replacement character. -/
def fffd : Char := Char.ofNat 0xFFFD

/-- Python `bytes.decode('utf-8', errors='replace')` (invalid data becomes
U+FFFD; the model advances one byte past an invalid lead byte). -/
def utf8DecodeReplace : List Nat → PyStr
  | [] => []
  | b :: rest =>
    if b < 0x80 then Char.ofNat b :: utf8DecodeReplace rest
    else if 0xC2 ≤ b ∧ b ≤ 0xDF then
      match rest with
      | b2 :: r =>
        if isCont b2 then
          Char.ofNat ((b - 0xC0) * 64 + (b2 - 0x80)) :: utf8DecodeReplace r
        else fffd :: utf8DecodeReplace (b2 :: r)
      | [] => [fffd]
    else if 0xE0 ≤ b ∧ b ≤ 0xEF then
      match rest with
      | b2 :: b3 :: r =>
        if cont3ok b b2 && isCont b3 then
          Char.ofNat ((b - 0xE0) * 4096 + (b2 - 0x80) * 64 + (b3 - 0x80)) ::
            utf8DecodeReplace r
        else fffd :: utf8DecodeReplace (b2 :: b3 :: r)
      | [b2] => fffd :: utf8DecodeReplace [b2]
      | [] => [fffd]
    else if 0xF0 ≤ b ∧ b ≤ 0xF4 then
      match rest with
      | b2 :: b3 :: b4 :: r =>
        if cont4ok b b2 && isCont b3 && isCont b4 then
          Char.ofNat ((b - 0xF0) * 262144 + (b2 - 0x80) * 4096 +
            (b3 - 0x80) * 64 + (b4 - 0x80)) :: utf8DecodeReplace r
        else fffd :: utf8DecodeReplace (b2 :: b3 :: b4 :: r)
      | [b2, b3] => fffd :: utf8DecodeReplace [b2, b3]
      | [b2] => fffd :: utf8DecodeReplace [b2]
      | [] => [fffd]
    else fffd :: utf8DecodeReplace rest

/-! ### Base64 (models Python `base64.b64decode`, `validate=False`) -/

/-- A character of the standard base64 alphabet. -/
def isB64Char (c : Char) : Bool := c.isAlpha || c.isDigit || c = '+' || c = '/'

/-- Value of a base64 alphabet character. -/
def b64Val (c : Char) : Nat :=
  if 'A' ≤ c ∧ c ≤ 'Z' then c.toNat - 65
  else if 'a' ≤ c ∧ c ≤ 'z' then c.toNat - 71
  else if c.isDigit then c.toNat + 4
  else if c = '+' then 62
  else 63

/-- The scanning loop of CPython `binascii.a2b_base64` in non-strict mode
(the backend of `base64.b64decode(s)` with `validate=False`). State:
remaining input, position inside the current four-character group
(`quad_pos`), pending bits of the previous character (`leftchar`), and the
number of padding characters seen for the current group (`pads`). Characters
outside the alphabet are skipped. A `'='` at `quad_pos ≥ 2` counts a pad and
ends the decode once `quad_pos + pads ≥ 4`; any other `'='` is skipped, and
`pads` resets on every data character. Data characters accumulate 6-bit
values, emitting a byte at positions 1, 2 and 3. Leftover characters in the
final group when the input ends (`quad_pos ≠ 0`) are a `binascii.Error`. -/
def b64Loop : List Char → Nat → Nat → Nat → Option (List Nat)
  | [], qp, _, _ => if qp = 0 then some [] else none
  | c :: rest, qp, left, pads =>
    if c = '=' then
      if 2 ≤ qp then
        if 4 ≤ qp + (pads + 1) then some []
        else b64Loop rest qp left (pads + 1)
      else b64Loop rest qp left pads
    else if isB64Char c then
      match qp with
      | 0 => b64Loop rest 1 (b64Val c) 0
      | 1 => (b64Loop rest 2 (b64Val c % 16) 0).map
          (fun t => (left * 4 + b64Val c / 16) :: t)
      | 2 => (b64Loop rest 3 (b64Val c % 4) 0).map
          (fun t => (left * 16 + b64Val c / 4) :: t)
      | _ => (b64Loop rest 0 0 0).map (fun t => (left * 64 + b64Val c) :: t)
    else b64Loop rest qp left pads

/-- Model of `base64.b64decode(s)` with `validate=False` (CPython
`binascii.a2b_base64`, non-strict). -/
def b64decodeBytes (s : PyStr) : Option (List Nat) :=
  b64Loop s 0 0 0

/-- Model of `base64.b64decode(s).decode('utf-8')`. -/
def pyB64DecodeStr (s : PyStr) : Option PyStr :=
  (b64decodeBytes s).bind utf8DecodeStrict

/-! ### Percent decoding (models `urllib.parse.unquote` / `unquote_plus`) -/

/-- Tokenise a percent-encoded string: `%XX` with two hex digits becomes a raw
byte, everything else stays a character (Python leaves malformed escapes
verbatim). -/
def pctTokens : PyStr → List (Char ⊕ Nat)
  | [] => []
  | '%' :: h1 :: h2 :: r2 =>
    match hexVal? h1, hexVal? h2 with
    | some a, some b => Sum.inr (16 * a + b) :: pctTokens r2
    | _, _ => Sum.inl '%' :: pctTokens (h1 :: h2 :: r2)
  | '%' :: [h1] => [Sum.inl '%', Sum.inl h1]
  | '%' :: [] => [Sum.inl '%']
  | c :: rest => Sum.inl c :: pctTokens rest

/-- Collect the leading run of raw bytes from a token stream. -/
def takeBytes : List (Char ⊕ Nat) → List Nat × List (Char ⊕ Nat)
  | Sum.inr b :: t => let p := takeBytes t; (b :: p.1, p.2)
  | l => ([], l)

theorem takeBytes_length_le : ∀ l : List (Char ⊕ Nat), (takeBytes l).2.length ≤ l.length
  | [] => by simp [takeBytes]
  | Sum.inl c :: t => by simp [takeBytes]
  | Sum.inr b :: t => by
    simpa [takeBytes] using Nat.le_succ_of_le (takeBytes_length_le t)

/-- Render a token stream: maximal byte runs are UTF-8 decoded with
replacement, plain characters pass through (`fuel`-driven structural
recursion; a fuel of the stream length always suffices, since `takeBytes`
never lengthens the remainder). -/
def renderToksF : Nat → List (Char ⊕ Nat) → PyStr
  | 0, _ => []
  | _ + 1, [] => []
  | fuel + 1, Sum.inl c :: t => c :: renderToksF fuel t
  | fuel + 1, Sum.inr b :: t =>
    let p := takeBytes t
    utf8DecodeReplace (b :: p.1) ++ renderToksF fuel p.2

/-- Python `urllib.parse.unquote(s)`. -/
def pyUnquote (s : PyStr) : PyStr :=
  renderToksF (pctTokens s).length (pctTokens s)

/-- Python `urllib.parse.unquote_plus(s)` (`+` becomes a space first). -/
def pyUnquotePlus (s : PyStr) : PyStr :=
  pyUnquote (s.map (fun c => if c = '+' then ' ' else c))

/-! ### `urllib.parse.urlparse` model -/

/-- The split components produced by `urllib.parse.urlparse`. -/
structure PyUrl where
  scheme : PyStr
  netloc : PyStr
  path : PyStr
  query : PyStr
  fragment : PyStr
deriving DecidableEq

/-- Characters allowed in a URL scheme. -/
def isSchemeChar (c : Char) : Bool :=
  c.isAlpha || c.isDigit || c = '+' || c = '-' || c = '.'

/-- Scheme extraction: the text before the first `:` when it is a nonempty run
of scheme characters (lowercased), as in CPython's `urlsplit`. -/
def schemeSplit (u : PyStr) : PyStr × PyStr :=
  match splitFirst ':' u with
  | some (before, after) =>
    if before ≠ [] ∧ before.all isSchemeChar then (toLowerStr before, after) else ([], u)
  | none => ([], u)

/-- A character that does not terminate the netloc. -/
def notNetlocEnd (c : Char) : Bool := c ≠ '/' && c ≠ '?' && c ≠ '#'

/-- Netloc extraction: after a leading `//`, up to the first `/`, `?` or `#`. -/
def netlocSplit : PyStr → PyStr × PyStr
  | '/' :: '/' :: rest => (rest.takeWhile notNetlocEnd, rest.dropWhile notNetlocEnd)
  | u => ([], u)

/-- Model of `urllib.parse.urlparse` (scheme, netloc, path, query, fragment;
the fragment is split off before the query, matching CPython). -/
def pyUrlParse (u : PyStr) : PyUrl :=
  let s1 := schemeSplit u
  let s2 := netlocSplit s1.2
  let s3 := match splitFirst '#' s2.2 with
    | some (a, b) => (a, b)
    | none => (s2.2, ([] : PyStr))
  let s4 := match splitFirst '?' s3.1 with
    | some (a, b) => (a, b)
    | none => (s3.1, ([] : PyStr))
  ⟨s1.1, s2.1, s4.1, s4.2, s3.2⟩

/-- The userinfo part of a netloc (before the LAST `@`), when present. -/
def userinfoOf (netloc : PyStr) : Option PyStr :=
  (rsplitLast '@' netloc).map (·.1)

/-- The hostinfo part of a netloc (after the last `@`). -/
def hostinfoOf (netloc : PyStr) : PyStr :=
  match rsplitLast '@' netloc with
  | some (_, hi) => hi
  | none => netloc

/-- `ParseResult.password`: userinfo after its first `:` when a `:` occurs. -/
def pyPassword (netloc : PyStr) : Option PyStr :=
  (userinfoOf netloc).bind (fun ui => (splitFirst ':' ui).map (·.2))

/-- Host and port strings of a netloc, following CPython's `_hostinfo`
(bracketed IPv6 hosts keep the text between `[` and `]`). -/
def hostPortStr (netloc : PyStr) : PyStr × Option PyStr :=
  let hi := hostinfoOf netloc
  if hi.contains '[' then
    match splitFirst '[' hi with
    | some (_, after) =>
      match splitFirst ']' after with
      | some (h, rest) => (h, (splitFirst ':' rest).map (·.2))
      | none => (after, none)
    | none => (hi, none)
  else
    match splitFirst ':' hi with
    | some (h, p) => (h, some p)
    | none => (hi, none)

/-- `ParseResult.hostname`: lowercased host, `none` when empty. -/
def pyHostname (netloc : PyStr) : Option PyStr :=
  let h := (hostPortStr netloc).1
  if h = [] then none else some (toLowerStr h)

/-- `ParseResult.port`: outer `none` models the `ValueError` raised for a
non-numeric or out-of-range port, `some none` is an absent port. -/
def pyPortE (netloc : PyStr) : Option (Option Nat) :=
  match (hostPortStr netloc).2 with
  | none => some none
  | some p =>
    if p = [] then some none
    else if p.all Char.isDigit then
      let v := digitsVal p
      if v ≤ 65535 then some (some v) else none
    else none

/-- Model of `urllib.parse.parse_qsl(qs)` with default options: split on `&`,
keep only `k=v` pairs with a nonempty value, percent-plus-decode both sides. -/
def parseQsl (qs : PyStr) : List (PyStr × PyStr) :=
  (splitAll '&' qs).foldr
    (fun nv acc =>
      if nv = [] then acc
      else
        match splitFirst '=' nv with
        | none => acc
        | some (k, v) =>
          if v = [] then acc else (pyUnquotePlus k, pyUnquotePlus v) :: acc)
    []

/-- `parse_qs(...).get(k, [d])[0]`: the value of the FIRST pair with key `k`. -/
def dictGetFirst (ps : List (PyStr × PyStr)) (k : PyStr) : Option PyStr :=
  (ps.find? (fun p => p.1 == k)).map (·.2)

/-! ### Node model (`app/models/schemas.py`) -/

/-- `ProxyType` enumeration from `schemas.py`. -/
inductive ProxyType
  | ss | ssr | vmess | vless | trojan | hysteria | hysteria2 | tuic | wireguard
deriving DecidableEq

/-- `ProxyNode` from `schemas.py`: pydantic optional fields become `Option`,
with the model's declared defaults. `port` is a Python `int` (unbounded;
the schema declares no range validator). -/
structure ProxyNode where
  name : PyStr
  type : ProxyType
  server : PyStr
  port : Int
  cipher : Option PyStr := none
  password : Option PyStr := none
  uuid : Option PyStr := none
  alterId : Option Int := none
  network : Option PyStr := none
  tls : Option Bool := none
  sni : Option PyStr := none
  host : Option PyStr := none
  path : Option PyStr := none
  protocol : Option PyStr := none
  obfs : Option PyStr := none
  obfs_param : Option PyStr := none
  protocol_param : Option PyStr := none
  auth_str : Option PyStr := none
  up : Option PyStr := none
  down : Option PyStr := none
  udp : Option Bool := some true
  skip_cert_verify : Option Bool := some false
deriving DecidableEq

/-! ### `SubscriptionParser._parse_ss` (`core/parser.py`) -/

/-- `SubscriptionParser._parse_ss`: both historical SS encodings; any raised
exception (bad base64, missing separators, bad int) yields `none`. -/
def parse_ss (url : PyStr) : Option ProxyNode :=
  let parsed := pyUrlParse url
  let enc := parsed.netloc
  let parts : Option (PyStr × PyStr × PyStr × PyStr) :=
    if enc.contains '@' = false then
      -- format 1: ss://base64(method:password@server:port)
      match pyB64DecodeStr enc with
      | some decoded =>
        if decoded.contains '@' then
          match rsplitLast '@' decoded with
          | some (authPart, serverPart) =>
            match splitFirst ':' authPart, splitFirst ':' serverPart with
            | some (m, pw), some (sv, pt) => some (m, pw, sv, pt)
            | _, _ => none
          | none => none
        else none
      | none => none
    else
      -- format 2: ss://base64(method:password)@server:port
      match splitFirst '@' enc with
      | some (authEnc, serverPart) =>
        match pyB64DecodeStr authEnc with
        | some authDec =>
          match splitFirst ':' authDec, splitFirst ':' serverPart with
          | some (m, pw), some (sv, pt) => some (m, pw, sv, pt)
          | _, _ => none
        | none => none
      | none => none
  match parts with
  | none => none
  | some (method, password, server, port) =>
    match pyInt? port with
    | none => none
    | some pv =>
      some { name := if parsed.fragment ≠ [] then pyUnquote parsed.fragment
                     else server ++ ':' :: port,
             type := ProxyType.ss, server := server, port := pv,
             cipher := some method, password := some password, udp := some true }

/-! ### `SubscriptionParser._parse_hysteria` / `_parse_hysteria2` -/

/-- `SubscriptionParser._parse_hysteria`: authority-based URI; a missing host
(pydantic rejects `server=None`) or an invalid port string yields `none`. -/
def parse_hysteria (url : PyStr) : Option ProxyNode :=
  let parsed := pyUrlParse url
  match pyPortE parsed.netloc with
  | none => none
  | some portOpt =>
    match pyHostname parsed.netloc with
    | none => none
    | some server =>
      let port : Nat :=
        match portOpt with
        | some p => if p = 0 then 443 else p
        | none => 443
      let params := parseQsl parsed.query
      let name := if parsed.fragment ≠ [] then pyUnquote parsed.fragment
                  else server ++ ':' :: natToStr port
      some { name := name, type := ProxyType.hysteria, server := server,
             port := (port : Int),
             auth_str := dictGetFirst params (pys "auth"),
             up := dictGetFirst params (pys "up"),
             down := dictGetFirst params (pys "down"),
             sni := some ((dictGetFirst params (pys "peer")).getD server),
             skip_cert_verify := some
               (toLowerStr ((dictGetFirst params (pys "insecure")).getD (pys "false"))
                 == pys "true"),
             udp := some true }

/-- `SubscriptionParser._parse_hysteria2`: delegates to `_parse_hysteria` and
overwrites the node's `type` tag. -/
def parse_hysteria2 (url : PyStr) : Option ProxyNode :=
  match parse_hysteria url with
  | some node => some { node with type := ProxyType.hysteria2 }
  | none => none

/-! ### Regular-expression engine

Models the subset of Python `re` used by `core/rules.py` (all compilations
there pass `re.IGNORECASE`): literal characters, `.`, the postfix quantifiers
`?`, `*`, `+`, top-level alternation `|`, and backslash-escaped punctuation.
Patterns using unsupported syntax fail to compile in the model. -/

/-- A regex atom: any-character dot or a literal. -/
inductive RAtom
  | dot
  | lit (c : Char)
deriving DecidableEq

/-- Quantifier attached to an atom. -/
inductive RKind
  | once | opt | star | plus
deriving DecidableEq

/-- One quantified atom. -/
structure RPiece where
  atom : RAtom
  kind : RKind
deriving DecidableEq

/-- One alternation branch: a sequence of quantified atoms. -/
abbrev RBranch := List RPiece

/-- A compiled pattern: alternation of branches. -/
abbrev Regex := List RBranch

/-- Case-insensitive atom match (`re.IGNORECASE` via ASCII case folding;
`.` matches everything except a newline). -/
def atomMatch : RAtom → Char → Bool
  | RAtom.dot, c => c ≠ '\n'
  | RAtom.lit l, c => l.toLower == c.toLower

/-- Remainders left after `atom*` consumes a (possibly empty) matching run
from the front of `s`. -/
def starRems (a : RAtom) : PyStr → List PyStr
  | [] => [[]]
  | c :: cs => (c :: cs) :: (if atomMatch a c then starRems a cs else [])

/-- Remainders left after one quantified atom matches a prefix of `s`. -/
def pieceRems (p : RPiece) (s : PyStr) : List PyStr :=
  match p.kind with
  | RKind.once =>
    match s with
    | c :: cs => if atomMatch p.atom c then [cs] else []
    | [] => []
  | RKind.opt =>
    s :: (match s with
          | c :: cs => if atomMatch p.atom c then [cs] else []
          | [] => [])
  | RKind.star => starRems p.atom s
  | RKind.plus =>
    match s with
    | c :: cs => if atomMatch p.atom c then starRems p.atom cs else []
    | [] => []

/-- Can the branch match some prefix of `s`? (existence semantics of a
backtracking matcher). -/
def seqCan : RBranch → PyStr → Bool
  | [], _ => true
  | p :: ps, s => (pieceRems p s).any (fun t => seqCan ps t)

/-- `pattern.search(s)`: does some branch match starting at some position? -/
def rsearch (r : Regex) (s : PyStr) : Bool :=
  (suffixes s).any (fun t => r.any (fun b => seqCan b t))

/-- Parse the pieces of one alternation branch; `none` models both `re.error`
and syntax outside the supported subset. -/
def parsePieces : PyStr → Option RBranch
  | [] => some []
  | '\\' :: d :: rest =>
    if d.isAlpha || d.isDigit then none
    else
      match rest with
      | '?' :: r => (parsePieces r).map (⟨RAtom.lit d, RKind.opt⟩ :: ·)
      | '*' :: r => (parsePieces r).map (⟨RAtom.lit d, RKind.star⟩ :: ·)
      | '+' :: r => (parsePieces r).map (⟨RAtom.lit d, RKind.plus⟩ :: ·)
      | r => (parsePieces r).map (⟨RAtom.lit d, RKind.once⟩ :: ·)
  | ['\\'] => none
  | c :: rest =>
    if c = '?' || c = '*' || c = '+' || c = '(' || c = ')' ||
        c = '[' || c = ']' || c = '^' || c = '$' || c = '\\' then none
    else
      let a := if c = '.' then RAtom.dot else RAtom.lit c
      match rest with
      | '?' :: r => (parsePieces r).map (⟨a, RKind.opt⟩ :: ·)
      | '*' :: r => (parsePieces r).map (⟨a, RKind.star⟩ :: ·)
      | '+' :: r => (parsePieces r).map (⟨a, RKind.plus⟩ :: ·)
      | r => (parsePieces r).map (⟨a, RKind.once⟩ :: ·)

/-- `re.compile(pat, re.IGNORECASE)` for the supported subset: top-level
alternation of branches. -/
def recompile (pat : PyStr) : Option Regex :=
  (splitAll '|' pat).mapM parsePieces

/-- `re.search(pat, s, re.IGNORECASE)` under a pattern that compiles (used
where the source compiles a known-good pattern). -/
def pySearch (pat s : PyStr) : Bool :=
  match recompile pat with
  | some r => rsearch r s
  | none => false

/-! ### `RuleProcessor.apply_node_filters` (`core/rules.py`) -/

/-- Python truthiness of an optional string argument. -/
def truthy : Option PyStr → Bool
  | some s => !s.isEmpty
  | none => false

/-- The interface of the `re` library as `apply_node_filters` uses it:
`compile` is `re.compile(pattern, re.IGNORECASE)` with `none` standing for a
raised `re.error`, and `search` is `pattern.search(s) is not None` (which
never raises on a compiled pattern). `apply_node_filters` is embedded over
an arbitrary such library, so everything proved about it holds for Python's
regular-expression semantics in particular. -/
structure RegexLib where
  Rgx : Type
  compile : PyStr → Option Rgx
  search : Rgx → PyStr → Bool

/-- A small concrete regex library used only to instantiate witnesses: a
pattern is a case-insensitive literal searched as a substring, and any
pattern containing one of a few metacharacters is treated as failing to
compile. It makes no fidelity claim beyond the literal patterns appearing
in the witnesses. -/
@[reducible] def litLib : RegexLib where
  Rgx := PyStr
  compile p :=
    if p.any (fun c => c ∈ ['(', ')', '[', ']', '\\', '^', '$', '.', '|', '?', '*', '+'])
    then none else some (toLowerStr p)
  search r n := isSubB r (toLowerStr n)

/-- `RuleProcessor.apply_node_filters`: include filter then exclude filter;
a compile failure raises inside the `try` block and the `except` handler
returns the ORIGINAL node list. -/
def apply_node_filters (L : RegexLib) (nodes : List PyStr)
    (include_pattern exclude_pattern : Option PyStr) : List PyStr :=
  if truthy include_pattern then
    match L.compile (include_pattern.getD []) with
    | none => nodes
    | some r =>
      let f1 := nodes.filter (fun n => L.search r n)
      if truthy exclude_pattern then
        match L.compile (exclude_pattern.getD []) with
        | none => nodes
        | some r2 => f1.filter (fun n => ! L.search r2 n)
      else f1
  else
    if truthy exclude_pattern then
      match L.compile (exclude_pattern.getD []) with
      | none => nodes
      | some r2 => nodes.filter (fun n => ! L.search r2 n)
    else nodes

/-! ### `RuleProcessor._parse_custom_group` (`core/rules.py`) -/

theorem splitFirst_some_length {sep : Char} :
    ∀ {s a b : PyStr}, splitFirst sep s = some (a, b) →
      s.length = a.length + 1 + b.length := by
  intro s
  induction s with
  | nil => intro a b h; simp [splitFirst] at h
  | cons c cs ih =>
    intro a b h
    simp only [splitFirst] at h
    split at h
    · simp only [Option.some.injEq, Prod.mk.injEq] at h
      obtain ⟨ha, hb⟩ := h
      subst ha; subst hb
      simp; omega
    · cases hsp : splitFirst sep cs with
      | none => rw [hsp] at h; simp at h
      | some p =>
        rw [hsp] at h
        simp only [Option.map, Option.some.injEq, Prod.mk.injEq] at h
        obtain ⟨ha, hb⟩ := h
        have hlen := ih (a := p.1) (b := p.2) (by rw [hsp])
        subst ha; subst hb
        simp at hlen ⊢
        omega

/-- `re.findall(r'\[(.*?)\]', s)`, `fuel`-driven: scan for `[`, capture the
(newline-free) text up to the next `]`, continue after it. A fuel of the
string length always suffices (`splitFirst` never lengthens the remainder). -/
def findallBrF : Nat → PyStr → List PyStr
  | 0, _ => []
  | _ + 1, [] => []
  | fuel + 1, '[' :: rest =>
    match splitFirst ']' rest with
    | some (cap, rem) =>
      if cap.contains '\n' then findallBrF fuel rest
      else cap :: findallBrF fuel rem
    | none => findallBrF fuel rest
  | fuel + 1, _ :: rest => findallBrF fuel rest

/-- `re.findall(r'\[(.*?)\]', s)`. -/
def findallBr (s : PyStr) : List PyStr := findallBrF s.length s

/-- A generated proxy-group dictionary: absent dict keys are `none`. -/
structure PGroup where
  name : PyStr
  type : PyStr
  proxies : List PyStr
  url : Option PyStr := none
  interval : Option Int := none
  tolerance : Option Int := none
  strategy : Option PyStr := none
deriving DecidableEq

/-- The tolerance scan: last comma-field whose stripped text is all digits. -/
def findTol : List PyStr → Int
  | [] => 50
  | p :: rest =>
    let t := stripStr p
    if t ≠ [] ∧ t.all Char.isDigit then (digitsVal t : Int) else findTol rest

/-- `RuleProcessor._parse_custom_group`: backtick-delimited custom group
mini-language. -/
def parse_custom_group (group_config : PyStr) (nodes : List PyStr) :
    Option PGroup :=
  let parts := splitAll '`' group_config
  if parts.length < 3 then none
  else
    let name := parts.getD 0 []
    let group_type := parts.getD 1 []
    let proxiesPart := parts.getD 2 []
    let url := if parts.length > 3 then parts.getD 3 []
               else pys "http://www.gstatic.com/generate_204"
    let it : Int × Int :=
      if parts.length > 4 then
        let ips := splitAll ',' (parts.getD 4 [])
        let first := ips.headD []
        ((if first ≠ [] ∧ first.all Char.isDigit then (digitsVal first : Int) else 300),
          findTol ips.reverse)
      else (300, 50)
    let proxies : List PyStr :=
      if (pys ".").isPrefixOf proxiesPart ∧ (pys ".").isSuffixOf proxiesPart then
        -- regional-match form `.pattern.`
        let patternStr := (proxiesPart.drop 1).dropLast
        match recompile patternStr with
        | some pat => nodes.filter (fun n => rsearch pat n)
        | none =>
          let keywords := splitAll '|' patternStr
          nodes.filter (fun n => keywords.any (fun kw => isSubB kw n))
      else
        -- bracket-delimited form
        (findallBr proxiesPart).foldl
          (fun acc item =>
            if item = pys "DIRECT" ∨ item = pys "REJECT" then acc ++ [item]
            else if (pys "[]").isPrefixOf item then acc ++ [item.drop 2]
            else if isSubB (pys ".*") item || (pys "^").isPrefixOf item ||
                (pys "$").isSuffixOf item then
              match recompile item with
              | some pat => acc ++ nodes.filter (fun n => rsearch pat n)
              | none => acc
            else if nodes.contains item then acc ++ [item] else acc)
          []
    let isTest := group_type = pys "url-test" ∨ group_type = pys "fallback" ∨
      group_type = pys "load-balance"
    let proxies2 := if proxies = [] ∧ isTest then nodes else proxies
    some { name := name, type := group_type, proxies := proxies2,
           url := if isTest then some url else none,
           interval := if isTest then some it.1 else none,
           tolerance := if group_type = pys "url-test" then some it.2 else none,
           strategy := if group_type = pys "load-balance"
                       then some (pys "consistent-hashing") else none }

/-! ### `RuleProcessor.add_emoji_flags` (`core/rules.py`) -/

/-- The `(regionPattern, flagGlyph)` table, in source (insertion) order. -/
def flag_map : List (PyStr × PyStr) := [
  (pys "港|hk|hong.?kong", pys "🇭🇰"),
  (pys "台|tw|taiwan", pys "🇹🇼"),
  (pys "澳门|macao", pys "🇲🇴"),
  (pys "中国|china|cn", pys "🇨🇳"),
  (pys "日本|jp|japan", pys "🇯🇵"),
  (pys "韩国|kr|korea", pys "🇰🇷"),
  (pys "新加坡|sg|singapore", pys "🇸🇬"),
  (pys "马来西亚|my|malaysia", pys "🇲🇾"),
  (pys "泰国|th|thailand", pys "🇹🇭"),
  (pys "印度|in|india", pys "🇮🇳"),
  (pys "菲律宾|ph|philippines", pys "🇵🇭"),
  (pys "印尼|id|indonesia", pys "🇮🇩"),
  (pys "越南|vn|vietnam", pys "🇻🇳"),
  (pys "英国|uk|britain|united.?kingdom", pys "🇬🇧"),
  (pys "法国|fr|france", pys "🇫🇷"),
  (pys "德国|de|germany", pys "🇩🇪"),
  (pys "荷兰|nl|netherlands", pys "🇳🇱"),
  (pys "意大利|it|italy", pys "🇮🇹"),
  (pys "西班牙|es|spain", pys "🇪🇸"),
  (pys "俄罗斯|ru|russia", pys "🇷🇺"),
  (pys "瑞士|ch|switzerland", pys "🇨🇭"),
  (pys "瑞典|se|sweden", pys "🇸🇪"),
  (pys "挪威|no|norway", pys "🇳🇴"),
  (pys "芬兰|fi|finland", pys "🇫🇮"),
  (pys "丹麦|dk|denmark", pys "🇩🇰"),
  (pys "波兰|pl|poland", pys "🇵🇱"),
  (pys "土耳其|tr|turkey", pys "🇹🇷"),
  (pys "美国|us|united.?states|america", pys "🇺🇸"),
  (pys "加拿大|ca|canada", pys "🇨🇦"),
  (pys "墨西哥|mx|mexico", pys "🇲🇽"),
  (pys "巴西|br|brazil", pys "🇧🇷"),
  (pys "阿根廷|ar|argentina", pys "🇦🇷"),
  (pys "澳大利亚|au|australia", pys "🇦🇺"),
  (pys "新西兰|nz|new.?zealand", pys "🇳🇿"),
  (pys "南非|za|south.?africa", pys "🇿🇦"),
  (pys "埃及|eg|egypt", pys "🇪🇬"),
  (pys "以色列|il|israel", pys "🇮🇱"),
  (pys "阿联酋|ae|uae", pys "🇦🇪")]

/-- The table scan of `add_emoji_flags`: first matching pattern wins; the flag
is prepended only when not already a substring of the name. -/
def tagScan : List (PyStr × PyStr) → PyStr → PyStr
  | [], n => n
  | (p, f) :: rest, n =>
    if pySearch p n then
      if isSubB f n then n else f ++ ' ' :: n
    else tagScan rest n

/-- `RuleProcessor.add_emoji_flags`. -/
def add_emoji_flags (node_name : PyStr) : PyStr := tagScan flag_map node_name

/-! ### `IProtocolParser.validate_node` (`core/protocol_parser_interface.py`) -/

/-- The port warning `f"端口号无效: {node.port}"`. -/
def portWarning (p : Int) : PyStr := pys "端口号无效: " ++ intToStr p

/-- `IProtocolParser.validate_node`: non-fatal warnings for empty name, empty
server and out-of-range port. -/
def validate_node (n : ProxyNode) : List PyStr :=
  (if n.name = [] then [pys "节点名称为空"] else []) ++
  (if n.server = [] then [pys "服务器地址为空"] else []) ++
  (if ¬(1 ≤ n.port ∧ n.port ≤ 65535) then [portWarning n.port] else [])

/-! ### `VersionManager` (`core/compatibility/version_manager.py`) -/

/-- `CompatibilityLevel` (the Python `partial` level is named
`partialCompat` here). -/
inductive CompatLevel
  | full | partialCompat | degraded | incompatible
deriving DecidableEq

/-- The `CompatibilityRule` dataclass; a `none` mapping target means the field
is dropped. `warnings=None` is modelled as the empty list. -/
structure CompatRule where
  source_version : PyStr
  target_version : PyStr
  level : CompatLevel
  field_mappings : List (PyStr × Option PyStr) := []
  warnings : List PyStr := []
deriving DecidableEq

/-- `VersionManager._initialize_compatibility_rules`: the curated table. -/
def compatibility_rules : List (PyStr × List CompatRule) := [
  (pys "hysteria", [
    { source_version := pys "1", target_version := pys "2",
      level := CompatLevel.partialCompat,
      field_mappings := [(pys "auth_str", some (pys "auth")),
        (pys "obfs", some (pys "obfs")), (pys "up", some (pys "up_mbps")),
        (pys "down", some (pys "down_mbps"))],
      warnings := [pys "fast_open 和 lazy_start 功能在 v2 中不支持"] },
    { source_version := pys "2", target_version := pys "1",
      level := CompatLevel.degraded,
      field_mappings := [(pys "auth", some (pys "auth_str")),
        (pys "up_mbps", some (pys "up")), (pys "down_mbps", some (pys "down"))],
      warnings := [pys "brutal 和 salamander 混淆在 v1 中不支持"] }]),
  (pys "tuic", [
    { source_version := pys "4", target_version := pys "5",
      level := CompatLevel.partialCompat,
      field_mappings := [(pys "token", some (pys "uuid")),
        (pys "disable_sni", none)],
      warnings := [pys "需要同时设置 password 字段", pys "disable_sni 功能已移除"] },
    { source_version := pys "5", target_version := pys "4",
      level := CompatLevel.degraded,
      field_mappings := [(pys "uuid", some (pys "token")),
        (pys "password", none), (pys "udp_relay_mode", none),
        (pys "reduce_rtt", none)],
      warnings := [pys "password、udp_relay_mode、reduce_rtt 功能在 v4 中不支持"] }])]

/-- The interface of `packaging.version` as `check_compatibility` uses it:
`parse` is `packaging.version.parse` with `none` standing for a raised
`InvalidVersion`, and `veq`/`vlt` are the `==`/`<` comparisons of parsed
`Version` objects (total, and raising nothing). `check_compatibility` is
embedded over an arbitrary such library, so everything proved about it
holds for the full PEP 440 semantics of `packaging.version` in
particular. -/
structure VersionLib where
  Ver : Type
  parse : PyStr → Option Ver
  veq : Ver → Ver → Bool
  vlt : Ver → Ver → Bool

/-- A concrete version parser used only to instantiate witnesses: plain
release numbers (optional surrounding whitespace, optional `v`/`V`,
dot-separated digit groups), a sublanguage on which `packaging.version`
agrees; anything else is treated as `InvalidVersion` (`none`). -/
def parseVersion (s : PyStr) : Option (List Nat) :=
  let t := stripStr s
  let t2 := match t with
    | 'v' :: r => r
    | 'V' :: r => r
    | r => r
  let gs := splitAll '.' t2
  if gs.all (fun g => g ≠ [] && g.all Char.isDigit) then some (gs.map digitsVal)
  else none

/-- Trailing-zero normalisation of a release tuple (PEP 440: `1.0 == 1`). -/
def stripTrailingZeros (l : List Nat) : List Nat :=
  (l.reverse.dropWhile (· = 0)).reverse

/-- Release-tuple equality as compared by `packaging.version`. -/
def verEq (a b : List Nat) : Bool := stripTrailingZeros a == stripTrailingZeros b

/-- Release-tuple strict order as compared by `packaging.version`
(missing components count as zero). -/
def verLt : List Nat → List Nat → Bool
  | [], [] => false
  | [], b :: bs => decide (0 < b) || (decide (b = 0) && verLt [] bs)
  | _ :: _, [] => false
  | a :: xs, b :: ys => decide (a < b) || (decide (a = b) && verLt xs ys)

/-- The witness instance of `VersionLib`: release tuples under
`parseVersion`, with the `packaging.version` comparisons on them. -/
@[reducible] def relVerLib : VersionLib where
  Ver := List Nat
  parse := parseVersion
  veq := verEq
  vlt := verLt

/-- The exact-match loop of `check_compatibility`: the first curated rule of
the protocol whose source/target versions match exactly. -/
def findCompatRule (protocol source_version target_version : PyStr) :
    Option CompatRule :=
  (((compatibility_rules.find? (fun p => p.1 == toLowerStr protocol)).map (·.2)).getD []).find?
    (fun r => r.source_version == source_version &&
      r.target_version == target_version)

/-- `VersionManager.check_compatibility`: exact table lookup first, then the
version-comparison fallback, `incompatible` on unparsable versions. -/
def check_compatibility (L : VersionLib)
    (protocol source_version target_version : PyStr) : CompatRule :=
  match findCompatRule protocol source_version target_version with
  | some r => r
  | none =>
    match L.parse source_version, L.parse target_version with
    | some sv, some tv =>
      if L.veq sv tv then
        { source_version := source_version, target_version := target_version,
          level := CompatLevel.full }
      else if L.vlt sv tv then
        { source_version := source_version, target_version := target_version,
          level := CompatLevel.partialCompat,
          warnings := [pys "从 v" ++ source_version ++ pys " 升级到 v" ++
            target_version ++ pys " 可能有功能变更"] }
      else
        { source_version := source_version, target_version := target_version,
          level := CompatLevel.degraded,
          warnings := [pys "从 v" ++ source_version ++ pys " 降级到 v" ++
            target_version ++ pys " 会丢失部分功能"] }
    | _, _ =>
      { source_version := source_version, target_version := target_version,
        level := CompatLevel.incompatible,
        warnings := [pys "无法确定 v" ++ source_version ++ pys " 和 v" ++
          target_version ++ pys " 的兼容性"] }

/-! ### `WireGuardParser` (`core/parsers/wireguard_parser.py`) -/

/-- The include predicate of the spec's filter characterisation: an absent
pattern matches everything, a pattern that fails to compile matches
nothing. -/
def incMatch (L : RegexLib) (inc : Option PyStr) (n : PyStr) : Bool :=
  match inc with
  | none => true
  | some p =>
    match L.compile p with
    | some r => L.search r n
    | none => false

/-- The exclude predicate of the spec's filter characterisation: an absent
pattern excludes nothing. -/
def excMatch (L : RegexLib) (exc : Option PyStr) (n : PyStr) : Bool :=
  match exc with
  | none => false
  | some p =>
    match L.compile p with
    | some r => L.search r n
    | none => false

/-- The name/server warnings of `validate_node` (everything except the port
check), for stating what `validate_node` returns on an in-range port. -/
def nameServerWarnings (n : ProxyNode) : List PyStr :=
  (if n.name = [] then [pys "节点名称为空"] else []) ++
  (if n.server = [] then [pys "服务器地址为空"] else [])

/-- A branch whose first piece is a mandatory literal whose letter (after case
folding) never occurs in `bad`: such a branch can never start matching inside
a prepended prefix drawn from `bad`. -/
def headOkB (bad : List Char) (b : RBranch) : Bool :=
  match b with
  | RPiece.mk (RAtom.lit c) RKind.once :: _ =>
    bad.all (fun d => d.toLower != c.toLower)
  | _ => false

/-- A pattern that compiles and all of whose branches are `headOkB`. -/
def patOkB (bad : List Char) (p : PyStr) : Bool :=
  match recompile p with
  | some r => r.all (headOkB bad)
  | none => false

/-- All characters that can occur in a prepended emoji prefix: every flag
glyph's characters plus the separating space. -/
def flagBadChars : List Char := (flag_map.map (·.2)).flatten ++ [' ']

theorem self_mem_suffixes : ∀ s : PyStr, s ∈ suffixes s
  | [] => by simp [suffixes]
  | c :: cs => by simp [suffixes]

theorem mem_suffixes_append (t : PyStr) {s u : PyStr} (h : u ∈ suffixes s) :
    u ∈ suffixes (t ++ s) := by
  induction t with
  | nil => simpa using h
  | cons c cs ih =>
    show u ∈ suffixes (c :: (cs ++ s))
    simp only [suffixes]
    exact List.mem_cons_of_mem _ ih

theorem rsearch_mono {r : Regex} {s : PyStr} (t : PyStr) (h : rsearch r s = true) :
    rsearch r (t ++ s) = true := by
  unfold rsearch at h ⊢
  rw [List.any_eq_true] at h ⊢
  obtain ⟨u, hu, hb⟩ := h
  exact ⟨u, mem_suffixes_append t hu, hb⟩

theorem suffixes_append_cases :
    ∀ (t : PyStr) {s u : PyStr}, u ∈ suffixes (t ++ s) →
      u ∈ suffixes s ∨ ∃ d u2, u = d :: u2 ∧ d ∈ t := by
  intro t
  induction t with
  | nil => intro s u h; exact Or.inl (by simpa using h)
  | cons c cs ih =>
    intro s u h
    have h2 : u = c :: (cs ++ s) ∨ u ∈ suffixes (cs ++ s) := by
      simpa [suffixes] using h
    rcases h2 with h2 | h2
    · exact Or.inr ⟨c, cs ++ s, h2, by simp⟩
    · rcases ih h2 with h3 | ⟨d, u2, hu, hd⟩
      · exact Or.inl h3
      · exact Or.inr ⟨d, u2, hu, by simp [hd]⟩

theorem seqCan_head_blocked {bad : List Char} {b : RBranch} (hb : headOkB bad b = true)
    {d : Char} (hd : d ∈ bad) (w : PyStr) : seqCan b (d :: w) = false := by
  match b with
  | [] => simp [headOkB] at hb
  | RPiece.mk (RAtom.lit c) RKind.once :: ps =>
    simp only [headOkB, List.all_eq_true] at hb
    have hdc := hb d hd
    have hne : ¬ d.toLower = c.toLower := by simpa [bne] using hdc
    have hmatch : atomMatch (RAtom.lit c) d = false := by
      unfold atomMatch
      exact beq_eq_false_iff_ne.mpr (fun h2 => hne h2.symm)
    simp [seqCan, pieceRems, hmatch]
  | RPiece.mk (RAtom.lit c) RKind.opt :: ps => simp [headOkB] at hb
  | RPiece.mk (RAtom.lit c) RKind.star :: ps => simp [headOkB] at hb
  | RPiece.mk (RAtom.lit c) RKind.plus :: ps => simp [headOkB] at hb
  | RPiece.mk RAtom.dot k :: ps => simp [headOkB] at hb

theorem rsearch_prefix_blocked {bad : List Char} {r : Regex}
    (hr : ∀ b ∈ r, headOkB bad b = true) {t : PyStr} (ht : ∀ d ∈ t, d ∈ bad)
    {s : PyStr} (hs : rsearch r s = false) : rsearch r (t ++ s) = false := by
  by_contra hc
  have hc2 : rsearch r (t ++ s) = true := by
    cases h : rsearch r (t ++ s)
    · exact absurd h hc
    · rfl
  unfold rsearch at hc2
  rw [List.any_eq_true] at hc2
  obtain ⟨u, hu, hbany⟩ := hc2
  rw [List.any_eq_true] at hbany
  obtain ⟨b, hbr, hcan⟩ := hbany
  rcases suffixes_append_cases t hu with h1 | ⟨d, u2, rfl, hd⟩
  · have hstrue : rsearch r s = true := by
      unfold rsearch
      rw [List.any_eq_true]
      exact ⟨u, h1, by rw [List.any_eq_true]; exact ⟨b, hbr, hcan⟩⟩
    rw [hstrue] at hs
    cases hs
  · rw [seqCan_head_blocked (hr b hbr) (ht d hd) u2] at hcan
    cases hcan

theorem pySearch_mono {p s : PyStr} (t : PyStr) (h : pySearch p s = true) :
    pySearch p (t ++ s) = true := by
  unfold pySearch at h ⊢
  cases hc : recompile p with
  | none => rw [hc] at h; exact Bool.noConfusion h
  | some r => rw [hc] at h; exact rsearch_mono t h

theorem patOkB_search {bad : List Char} {p : PyStr} (h : patOkB bad p = true) :
    ∃ r, recompile p = some r ∧ ∀ b ∈ r, headOkB bad b = true := by
  unfold patOkB at h
  cases hc : recompile p with
  | none => rw [hc] at h; exact Bool.noConfusion h
  | some r =>
    rw [hc] at h
    rw [List.all_eq_true] at h
    exact ⟨r, rfl, h⟩

theorem isSubB_self_append (f x : PyStr) : isSubB f (f ++ x) = true := by
  unfold isSubB
  rw [List.any_eq_true]
  exact ⟨f ++ x, self_mem_suffixes _,
    List.isPrefixOf_iff_prefix.mpr (List.prefix_append f x)⟩

theorem tagScan_changed : ∀ (tbl : List (PyStr × PyStr)) (n : PyStr),
    tagScan tbl n = n ∨ ∃ pf, pf ∈ tbl ∧ tagScan tbl n = pf.2 ++ ' ' :: n := by
  intro tbl
  induction tbl with
  | nil => intro n; exact Or.inl rfl
  | cons pf rest ih =>
    intro n
    obtain ⟨p, f⟩ := pf
    simp only [tagScan]
    by_cases h1 : pySearch p n = true
    · by_cases h2 : isSubB f n = true
      · rw [h1, h2]; exact Or.inl (by simp)
      · rw [h1]
        simp only [Bool.not_eq_true] at h2
        rw [h2]
        exact Or.inr ⟨(p, f), by simp, by simp⟩
    · simp only [Bool.not_eq_true] at h1
      rw [h1]
      simp only [Bool.false_eq_true, if_false]
      rcases ih n with h | ⟨pf2, hin, heq⟩
      · exact Or.inl h
      · exact Or.inr ⟨pf2, List.mem_cons_of_mem _ hin, heq⟩

theorem flag_map_patsOk : ∀ pf ∈ flag_map, patOkB flagBadChars pf.1 = true := by
  decide

theorem flag_map_flagsBad :
    ∀ pf ∈ flag_map, ∀ d ∈ pf.2 ++ [' '], d ∈ flagBadChars := by
  decide

theorem tagScan_fix (bad : List Char) :
    ∀ (tbl : List (PyStr × PyStr)),
      (∀ pf ∈ tbl, patOkB bad pf.1 = true) →
      (∀ pf ∈ tbl, ∀ d ∈ pf.2 ++ [' '], d ∈ bad) →
      ∀ (n f : PyStr), tagScan tbl n = f ++ ' ' :: n →
        tagScan tbl (f ++ ' ' :: n) = f ++ ' ' :: n := by
  intro tbl
  induction tbl with
  | nil => intro _ _ n f _; rfl
  | cons pf rest ih =>
    intro hpat hflag n f h
    obtain ⟨p, g⟩ := pf
    have hpOk : patOkB bad p = true := hpat (p, g) (by simp)
    simp only [tagScan] at h ⊢
    by_cases h1 : pySearch p n = true
    · rw [h1] at h
      simp only [if_true] at h
      by_cases h2 : isSubB g n = true
      · rw [h2] at h
        simp only [if_true] at h
        exfalso
        have := congrArg List.length h
        simp at this
        omega
      · simp only [Bool.not_eq_true] at h2
        rw [h2] at h
        simp only [Bool.false_eq_true, if_false] at h
        have hg : g = f := List.append_cancel_right h
        subst hg
        have hs2 : pySearch p (g ++ ' ' :: n) = true := by
          have := pySearch_mono (g ++ [' ']) h1
          simpa using this
        have hsub : isSubB g (g ++ ' ' :: n) = true := by
          have := isSubB_self_append g (' ' :: n)
          simpa using this
        rw [hs2, hsub]
        simp
    · simp only [Bool.not_eq_true] at h1
      rw [h1] at h
      simp only [Bool.false_eq_true, if_false] at h
      have hrest := ih (fun q hq => hpat q (List.mem_cons_of_mem _ hq))
        (fun q hq => hflag q (List.mem_cons_of_mem _ hq)) n f h
      rcases tagScan_changed rest n with hc | ⟨pf2, hin, heq⟩
      · exfalso
        rw [hc] at h
        have := congrArg List.length h
        simp at this
        omega
      · rw [heq] at h
        have hf : pf2.2 = f := List.append_cancel_right h
        have hfb : ∀ d ∈ f ++ [' '], d ∈ bad := by
          rw [← hf]
          exact hflag pf2 (List.mem_cons_of_mem _ hin)
        have hps : pySearch p (f ++ ' ' :: n) = false := by
          obtain ⟨r, hrc, hrh⟩ := patOkB_search hpOk
          have hrn : rsearch r n = false := by
            unfold pySearch at h1
            rw [hrc] at h1
            exact h1
          have hblk := rsearch_prefix_blocked hrh hfb hrn
          unfold pySearch
          rw [hrc]
          simpa using hblk
        rw [hps]
        simp only [Bool.false_eq_true, if_false]
        exact hrest

/-- C5: emoji tagging is idempotent — for every node name,
`add_emoji_flags (add_emoji_flags name) = add_emoji_flags name`; the region
table is scanned in order, the first matching pattern wins, and the winning
flag glyph is prepended only when not already present in the name. -/
theorem emoji_tagging_idempotent (name : PyStr) :
    add_emoji_flags (add_emoji_flags name) = add_emoji_flags name := by
  unfold add_emoji_flags
  rcases tagScan_changed flag_map name with h | ⟨pf, hin, heq⟩
  · rw [h]; exact h
  · rw [heq]
    exact tagScan_fix flagBadChars flag_map flag_map_patsOk flag_map_flagsBad
      name pf.2 heq

/-! ### Claim theorems -/

/-- C6: `check_compatibility("tuic","4","5")` yields level `partial` with a
warning mentioning the `password` requirement; `("tuic","5","4")` yields
`degraded` with a warning naming `password`, `udp_relay_mode` and
`reduce_rtt` as unsupported. Both lookups hit the curated table, so the
result is independent of the version library. -/
theorem tuic_compat_4_5 (L : VersionLib) :
    (check_compatibility L (pys "tuic") (pys "4") (pys "5")).level =
        CompatLevel.partialCompat ∧
    (∃ w ∈ (check_compatibility L (pys "tuic") (pys "4") (pys "5")).warnings,
      isSubB (pys "password") w = true) ∧
    (check_compatibility L (pys "tuic") (pys "5") (pys "4")).level =
        CompatLevel.degraded ∧
    (∃ w ∈ (check_compatibility L (pys "tuic") (pys "5") (pys "4")).warnings,
      isSubB (pys "password") w = true ∧ isSubB (pys "udp_relay_mode") w = true ∧
        isSubB (pys "reduce_rtt") w = true) := by
  have key : ∀ s t : PyStr, (∃ r, findCompatRule (pys "tuic") s t = some r) →
      check_compatibility L (pys "tuic") s t =
        check_compatibility relVerLib (pys "tuic") s t := by
    intro s t hr
    obtain ⟨r, hr⟩ := hr
    unfold check_compatibility
    rw [hr]
  rw [key (pys "4") (pys "5") ⟨_, rfl⟩, key (pys "5") (pys "4") ⟨_, rfl⟩]
  decide

/-- C8: `_parse_hysteria2` returns exactly the `_parse_hysteria` result with
the node's `type` overwritten to `hysteria2` (and `none` whenever the
Hysteria parse fails); every other field, including the Hysteria-derived
`sni`/`auth_str`/`up`/`down` defaults, is identical. -/
theorem hysteria2_reuses_hysteria (url : PyStr) :
    parse_hysteria2 url =
      (parse_hysteria url).map (fun n => { n with type := ProxyType.hysteria2 }) := by
  unfold parse_hysteria2
  cases parse_hysteria url <;> rfl

/-- C3 counterexample: parsing the spec's custom group string yields an empty
member list (not `[DIRECT, Auto]`) and no tolerance key. -/
theorem custom_group_counterexample :
    (parse_custom_group (pys "G`select`[]DIRECT[]Auto`http://t`300,,50")
        [pys "DIRECT", pys "Auto"]).map (fun g => g.proxies) ≠
      some [pys "DIRECT", pys "Auto"] ∧
    (parse_custom_group (pys "G`select`[]DIRECT[]Auto`http://t`300,,50")
        [pys "DIRECT", pys "Auto"]).map (fun g => g.tolerance) ≠
      some (some 50) := by
  decide

/-- C3 (amended): parsing `"G`select`[]DIRECT[]Auto`http://t`300,,50"` yields
a group with name `G`, type `select` and an EMPTY member list — the bracket
regex captures the empty strings inside each `[]` — and, `select` not being
a test type, no url/interval/tolerance keys. -/
theorem custom_group_g_select :
    parse_custom_group (pys "G`select`[]DIRECT[]Auto`http://t`300,,50")
        [pys "DIRECT", pys "Auto"] =
      some { name := pys "G", type := pys "select", proxies := [] } := by
  decide

/-- C9 counterexample: `_parse_ss` successfully returns a node whose port is
70000, outside 1–65535 — no parser enforces the port-range invariant. -/
theorem parse_ss_port_out_of_range :
    (parse_ss (pys "ss://YWVzOnB3@h:70000")).map (fun n => n.port) =
        some 70000 ∧
    ¬((70000 : Int) ≤ 65535) := by
  decide

/-- C9 (amended): the 1–65535 port range is not an enforced invariant of
parsing; it is checked only by `validate_node`, which adds the non-fatal
warning `端口号无效: {port}` exactly when the port is out of range and
otherwise returns only the name/server warnings. -/
theorem validate_node_port_range (n : ProxyNode) :
    (¬(1 ≤ n.port ∧ n.port ≤ 65535) → portWarning n.port ∈ validate_node n) ∧
    ((1 ≤ n.port ∧ n.port ≤ 65535) → validate_node n = nameServerWarnings n) := by
  constructor
  · intro h
    unfold validate_node
    rw [if_pos h]
    simp
  · intro h
    unfold validate_node nameServerWarnings
    rw [if_neg (not_not_intro h)]
    simp

/-- C9 witness: the amended theorem applied to a node with port 99999. -/
theorem validate_node_port_range_witness :
    portWarning 99999 ∈ validate_node
      { name := pys "n", type := ProxyType.ss, server := pys "s",
        port := 99999 } :=
  (validate_node_port_range _).1 (by decide)

/-- C4 counterexample: a supplied empty-string exclude pattern is skipped by
Python truthiness — for EVERY regex library the input comes back unchanged,
the library's `compile`/`search` never being consulted. Yet the empty
pattern compiles in Python and its search matches every name (the witness
library agrees on it), so the claim's set characterisation would demand an
empty result. -/
theorem filters_empty_exclude_counterexample :
    (∀ L : RegexLib, apply_node_filters L [pys "a"] none (some []) = [pys "a"]) ∧
    excMatch litLib (some []) (pys "a") = true :=
  ⟨fun _ => rfl, rfl⟩

/-- C10: if either supplied pattern fails to compile (the regex library's
`compile` raises, i.e. returns `none` — for any regex-library behavior
whatsoever), `apply_node_filters` returns the original input node list
completely unchanged — not a partially filtered list — even when the other
pattern is valid. -/
theorem filters_bad_pattern_returns_input (L : RegexLib) (nodes : List PyStr)
    (inc exc : Option PyStr) :
    (truthy inc = true → L.compile (inc.getD []) = none →
      apply_node_filters L nodes inc exc = nodes) ∧
    (truthy exc = true → L.compile (exc.getD []) = none →
      apply_node_filters L nodes inc exc = nodes) := by
  unfold apply_node_filters
  constructor
  · intro h1 h2
    rw [if_pos h1, h2]
  · intro h1 h2
    by_cases hi : truthy inc = true
    · rw [if_pos hi]
      cases hc : L.compile (inc.getD []) with
      | none => rfl
      | some r => simp [h1, h2]
    · rw [if_neg hi, if_pos h1, h2]

/-- C10 witness: an invalid include pattern `(` with a valid exclude pattern
that would have removed a node; the input comes back unchanged. -/
theorem filters_bad_pattern_witness :
    apply_node_filters litLib [pys "a", pys "b"] (some (pys "("))
        (some (pys "a")) =
      [pys "a", pys "b"] :=
  (filters_bad_pattern_returns_input litLib [pys "a", pys "b"]
    (some (pys "(")) (some (pys "a"))).1 (by decide) rfl

/-- C4 (amended): for every regex-library behavior, every node-name list and
optional include/exclude patterns that are non-empty and compile,
`apply_node_filters` returns exactly the sublist matching include (when
supplied) and not matching exclude (when supplied), in original order; an
absent (or empty) pattern acts as the identity. -/
theorem apply_node_filters_characterisation (L : RegexLib)
    (nodes : List PyStr) (inc exc : Option PyStr)
    (hinc : ∀ p, inc = some p → p ≠ [] ∧ (L.compile p).isSome = true)
    (hexc : ∀ p, exc = some p → p ≠ [] ∧ (L.compile p).isSome = true) :
    apply_node_filters L nodes inc exc =
      nodes.filter (fun n => incMatch L inc n && !excMatch L exc n) := by
  cases inc with
  | none =>
    cases exc with
    | none =>
      simp [apply_node_filters, truthy, incMatch, excMatch]
    | some pe =>
      obtain ⟨hne, hcomp⟩ := hexc pe rfl
      obtain ⟨re, hre⟩ := Option.isSome_iff_exists.mp hcomp
      have htr : truthy (some pe) = true := by
        unfold truthy
        simp [List.isEmpty_iff, hne]
      simp [apply_node_filters, htr, hre, incMatch, excMatch, truthy]
      exact fun hh => absurd hh hne
  | some pi =>
    obtain ⟨hni, hcompi⟩ := hinc pi rfl
    obtain ⟨ri, hri⟩ := Option.isSome_iff_exists.mp hcompi
    have htri : truthy (some pi) = true := by
      unfold truthy; simp [List.isEmpty_iff, hni]
    cases exc with
    | none =>
      simp [apply_node_filters, htri, hri, truthy, incMatch, excMatch]
      exact fun hh => absurd hh hni
    | some pe =>
      obtain ⟨hne, hcompe⟩ := hexc pe rfl
      obtain ⟨re, hre⟩ := Option.isSome_iff_exists.mp hcompe
      have htre : truthy (some pe) = true := by
        unfold truthy; simp [List.isEmpty_iff, hne]
      simp only [apply_node_filters, htri, htre, hri, hre, if_true, incMatch,
        excMatch, Option.getD_some]
      rw [List.filter_filter]
      congr 1
      funext n
      rw [Bool.and_comm]

/-- C4 witness: the theorem applied to concrete names and patterns under the
witness regex library. -/
theorem apply_node_filters_characterisation_witness :
    apply_node_filters litLib [pys "HK 1", pys "US 2"] (some (pys "hk"))
        (some (pys "2")) =
      List.filter
        (fun n =>
          incMatch litLib (some (pys "hk")) n &&
            !excMatch litLib (some (pys "2")) n)
        [pys "HK 1", pys "US 2"] :=
  apply_node_filters_characterisation litLib [pys "HK 1", pys "US 2"]
    (some (pys "hk")) (some (pys "2"))
    (by intro p hp; cases hp; exact ⟨by decide, rfl⟩)
    (by intro p hp; cases hp; exact ⟨by decide, rfl⟩)

/-- C7: for every version-library behavior, `check_compatibility` performs
an exact-match lookup in the curated rule table first; absent a table entry
it falls back to version comparison — equal versions give `full` (and no
warnings), upgrading gives `partial` with a generic warning, downgrading
gives `degraded` with a generic warning, and an unparsable version gives
`incompatible`. -/
theorem check_compat_characterisation (L : VersionLib)
    (protocol source target : PyStr) :
    (∀ rule, findCompatRule protocol source target = some rule →
      check_compatibility L protocol source target = rule) ∧
    (findCompatRule protocol source target = none →
      ∀ sv tv, L.parse source = some sv → L.parse target = some tv →
        (check_compatibility L protocol source target).level =
          (if L.veq sv tv then CompatLevel.full
           else if L.vlt sv tv then CompatLevel.partialCompat
           else CompatLevel.degraded) ∧
        ((check_compatibility L protocol source target).warnings = [] ↔
          L.veq sv tv = true)) ∧
    (findCompatRule protocol source target = none →
      (L.parse source = none ∨ L.parse target = none) →
      (check_compatibility L protocol source target).level =
        CompatLevel.incompatible) := by
  refine ⟨?_, ?_, ?_⟩
  · intro rule h
    unfold check_compatibility
    rw [h]
  · intro hnone sv tv hs ht
    unfold check_compatibility
    rw [hnone, hs, ht]
    by_cases he : L.veq sv tv = true
    · simp [he]
    · simp only [Bool.not_eq_true] at he
      by_cases hl : L.vlt sv tv = true
      · simp [he, hl]
      · simp only [Bool.not_eq_true] at hl
        simp [he, hl]
  · intro hnone hor
    unfold check_compatibility
    rw [hnone]
    rcases hor with h | h
    · rw [h]
    · rw [h]
      cases L.parse source <;> rfl

/-- C7 witness: the fallback branch evaluated for an unknown protocol at
versions 1 → 2 under the witness version library. -/
theorem check_compat_characterisation_witness :
    (check_compatibility relVerLib (pys "zzz") (pys "1") (pys "2")).level =
      CompatLevel.partialCompat := by
  have h := (check_compat_characterisation relVerLib (pys "zzz") (pys "1")
    (pys "2")).2.1 (by decide) [1] [2] rfl rfl
  rw [h.1]
  decide

theorem splitFirst_not_mem {sep : Char} :
    ∀ {s : PyStr}, sep ∉ s → splitFirst sep s = none := by
  intro s
  induction s with
  | nil => intro _; rfl
  | cons c cs ih =>
    intro h
    have hc : c ≠ sep := fun hh => h (by simp [hh])
    have hcs : sep ∉ cs := fun hh => h (by simp [hh])
    simp [splitFirst, hc, ih hcs]

